import Mathlib

/-!
Verification of the textindex_ply compilation pipeline.

This file gives a shallow embedding, translated from the Python sources
(`src/textindex_ply/lexer.py`, `parser.py`, `ast.py`, `index_builder.py`),
of the tokenizer, the grammar actions together with a recursive-descent
rendering of the PLY grammar, and the index builder, and proves properties
of the parse results and of the builder's reduction pipeline.

Modelling conventions:
- Python dicts with string keys are insertion-ordered association lists;
  `dict.get` is `dictGet?`, `{**a, **b}` merging is `dictInsert`
  (last-write-wins, position kept).
- Python's truthiness-based `a or b` on strings/None is `pyOr` on
  `Option String` (both `None` and `""` are falsy).
- A raised exception is modelled by an `Option`-valued function returning
  `none`; partial mutations performed before the raise are not modelled.
- `repr(obj)` diagnostics are modelled by carrying the object itself.
- PLY's generated LALR machine is rendered as a fuel-indexed
  recursive-descent parser over the same token stream, with one Lean
  function per grammar production group and the semantic actions
  (`p_directive`, `p_mark`, `p_range_directive`, ...) as separate
  functions translated literally from parser.py.
-/

set_option maxRecDepth 4000

namespace TextIndex

/-- Membership test for a string-keyed association list (Python `key in d`). -/
def dictContains (d : List (String × String)) (k : String) : Bool :=
  d.any (fun p => p.1 = k)

/-- Lookup in a string-keyed association list (Python `d.get(key)`). -/
def dictGet? (d : List (String × String)) (k : String) : Option String :=
  (d.find? (fun p => p.1 = k)).map (fun p => p.2)

/-- Insertion-ordered dict update: an existing key keeps its position and is
overwritten, a new key is appended (Python `{**d, key: v}`). -/
def dictInsert (d : List (String × String)) (k v : String) : List (String × String) :=
  if d.any (fun p => p.1 = k) then
    d.map (fun p => if p.1 = k then (k, v) else p)
  else
    d ++ [(k, v)]

/-- Python `a or b` for string-or-None values: both `None` and the empty
string are falsy. -/
def pyOr (a b : Option String) : Option String :=
  match a with
  | some s => if s = "" then b else some s
  | none => b

/-- Python truthiness of a string-or-None value. -/
def pyTruthy (a : Option String) : Bool :=
  match a with
  | some s => decide (s ≠ "")
  | none => false

/-- The helper `arg_value(*keys)` of `IndexBuilder.handle_directive`: value of
the first key present in `args` (presence-based, not truthiness-based). -/
def arg_value (args : List (String × String)) : List String → Option String
  | [] => none
  | k :: ks =>
    match dictGet? args k with
    | some v => some v
    | none => arg_value args ks

/-! ## AST node types (ast.py) -/

/-- The `IndexDirective` dataclass of ast.py. The dataclass is declared with
`slots=True` and has no `suffix` field, so the `getattr(self, "suffix", None)`
probes inside `__post_init__` always see `None`; they are therefore omitted
from `postInitKind` below. -/
structure IndexDirective where
  name : String := "index"
  kind : String := "insert"
  args : List (String × String) := []
deriving Repr, DecidableEq

/-- The kind rewriting performed by `IndexDirective.__post_init__`: explicit
open/close/force kinds are respected, every other requested kind is
re-derived from the argument keys `see` and `range` (the `suffix` branches
are dead because the dataclass has no `suffix` slot). -/
def postInitKind (kind : String) (args : List (String × String)) : String :=
  if kind = "open" ∨ kind = "close" ∨ kind = "force" then kind
  else if dictContains args "see" then "see"
  else if dictContains args "range" then "range"
  else "insert"

/-- Constructing an `IndexDirective` runs `__post_init__` on the requested
kind. -/
def mkIndexDirective (name kind : String) (args : List (String × String)) : IndexDirective :=
  { name := name, kind := postInitKind kind args, args := args }

/-- The `IndexMark` dataclass of ast.py. -/
structure IndexMark where
  heading : String
  alias_ : Option String := none
  closing : Bool := false
  crossrefs : List String := []
  emphasis : Bool := false
  sort_key : Option String := none
  subheadings : List String := []
  suffix : Option String := none
  wildcard : Option String := none
deriving Repr, DecidableEq

/-- A syntax-tree node handed to the builder: a literal text run, an
`IndexMark`, an `IndexDirective`, an `IndexRangeBlock` (its three dataclass
fields inlined; `start` is `Option`al because Python leaves the field
untyped and the builder is specified on null starts as well), or a
`ProcessingControl`.

`ProcessingControl` is referenced by parser.py, index_builder.py and the
tests but its class is absent from ast.py. Modelled from the spec: a control
node `{enabled: bool}` that toggles builder state. -/
inductive Node where
  | text (s : String)
  | mark (m : IndexMark)
  | directive (d : IndexDirective)
  | rangeBlock (start : Option IndexDirective) (content : List Node) (endD : IndexDirective)
  | control (enabled : Bool)
deriving Repr

/-- An item of a normalized `range_block` entry content list:
`{"type": "text", "value": s}` or `{"type": "node", "value": repr(c)}`
(the node itself stands in for its `repr`). -/
inductive CItem where
  | textItem (s : String)
  | nodeItem (n : Node)
deriving Repr

/-- A builder entry: one Python dict from `IndexBuilder.entries`. Field
defaults encode absent keys; `type` discriminates the shape exactly as the
`"type"` value does in index_builder.py. `value` carries the node whose
`repr` the Python code would store. -/
structure Entry where
  type : String
  kind : Option String := none
  name : Option String := none
  args : List (String × String) := []
  label : Option String := none
  target : Option String := none
  xref_kind : Option String := none
  action : Option String := none
  heading : Option String := none
  subheadings : List String := []
  crossrefs : List String := []
  suffix : Option String := none
  sort_key : Option String := none
  emphasis : Bool := false
  closing : Bool := false
  alias_ : Option String := none
  wildcard : Option String := none
  start : Option String := none
  end_ : Option String := none
  content : List CItem := []
  value : Option Node := none
  refs : Option (List String) := none
deriving Repr

/-- A value stored in `IndexBuilder.index`: before `finalize` the values are
nested heading dicts, after `finalize` they are letter buckets (lists of
entries). -/
inductive PyVal where
  | dict (kvs : List (String × PyVal))
  | entryList (es : List Entry)
deriving Repr

/-! ## Lexer (lexer.py) -/

/-- Characters matched by the `t_TEXT` rule `[A-Za-z0-9_]+`. -/
def isTextChar (c : Char) : Bool :=
  c.isAlpha || c.isDigit || c = '_'

/-- Tokens of the lexer, one constructor per member of `tokens`. -/
inductive Tok where
  | CARET
  | EQUALS
  | EXCL
  | GT
  | HASH
  | LBRACE
  | LBRACKET
  | MINUS
  | PIPE
  | PLUS
  | QUOTED (s : String)
  | RBRACE
  | RBRACKET
  | SLASH
  | TEXT (s : String)
  | TILDE
deriving Repr, DecidableEq

/-- Scan the body of a quoted string opened with quote character `q`
(`t_QUOTED`). Escaped pairs are kept verbatim because the Python rule only
strips the surrounding quotes. Returns the body and the remaining input, or
`none` on an unterminated quote. -/
def scanQuoted (q : Char) : List Char → Option (List Char × List Char)
  | [] => none
  | c :: rest =>
    if c = q then some ([], rest)
    else if c = '\\' then
      match rest with
      | [] => none
      | d :: rest2 =>
        match scanQuoted q rest2 with
        | some p => some (c :: d :: p.1, p.2)
        | none => none
    else
      match scanQuoted q rest with
      | some p => some (c :: p.1, p.2)
      | none => none

/-- Maximal run of `t_TEXT` characters and the remaining input. -/
def scanText : List Char → (List Char × List Char)
  | [] => ([], [])
  | c :: rest =>
    if isTextChar c then
      let p := scanText rest
      (c :: p.1, p.2)
    else ([], c :: rest)

/-- Single-character symbol tokens (the `t_XXX = r"..."` string rules). -/
def symTok : Char → Option Tok
  | '^' => some .CARET
  | '=' => some .EQUALS
  | '!' => some .EXCL
  | '>' => some .GT
  | '#' => some .HASH
  | '\x7b' => some .LBRACE
  | '[' => some .LBRACKET
  | '-' => some .MINUS
  | '|' => some .PIPE
  | '+' => some .PLUS
  | '\x7d' => some .RBRACE
  | ']' => some .RBRACKET
  | '/' => some .SLASH
  | '~' => some .TILDE
  | _ => none

/-- One lexer pass: whitespace and newlines are discarded, quoted strings and
the wildcard glyphs (`**`, `*^-`, `*^`, `*`, emitted as `TEXT`) are matched
before text runs and symbols, and an unmatched character (`t_error`, also an
unterminated quote) is skipped with `lexer.skip(1)`. Fuel only bounds the
recursion; one unit is spent per emitted or skipped lexeme, so
`length + 1` always suffices. -/
def tokAux : Nat → List Char → List Tok
  | _, [] => []
  | 0, _ :: _ => []
  | fuel + 1, c :: rest =>
    if c = ' ' ∨ c = '\t' ∨ c = '\r' ∨ c = '\n' then tokAux fuel rest
    else if c = '"' ∨ c.toNat = 39 then
      match scanQuoted c rest with
      | some p => .QUOTED (String.mk p.1) :: tokAux fuel p.2
      | none => tokAux fuel rest
    else if c = '*' then
      match rest with
      | '*' :: r2 => .TEXT "**" :: tokAux fuel r2
      | '^' :: '-' :: r2 => .TEXT "*^-" :: tokAux fuel r2
      | '^' :: r2 => .TEXT "*^" :: tokAux fuel r2
      | _ => .TEXT "*" :: tokAux fuel rest
    else if isTextChar c then
      let p := scanText (c :: rest)
      .TEXT (String.mk p.1) :: tokAux fuel p.2
    else
      match symTok c with
      | some t => t :: tokAux fuel rest
      | none => tokAux fuel rest

/-- The lexer: raw text to token stream. -/
def tokenize (s : String) : List Tok :=
  tokAux (s.length + 1) s.data

/-! ## Parser semantic actions (parser.py) -/

/-- The kind computed locally inside `p_directive` before the
`IndexDirective` constructor (and hence `__post_init__`) runs: suffix first,
then the `see` argument key, else `insert`. `none` for the suffix is the
empty production. -/
def p_directive_kind (suffix : Option String) (args : List (String × String)) : String :=
  if suffix = some "+" then "open"
  else if suffix = some "-" then "close"
  else if suffix = some "!" then "force"
  else if dictContains args "see" then "see"
  else "insert"

/-- The `p_directive` action: `{name suffix? arg*}`. For `{index+ args...}`
with a non-empty argument list the action returns without setting a result
(the range-pair rule is given the chance to match), modelled as `none`. -/
def p_directive (name : String) (suffix : Option String) (args : List (String × String)) :
    Option IndexDirective :=
  if name = "index" ∧ suffix = some "+" ∧ args ≠ [] then none
  else some (mkIndexDirective name (p_directive_kind suffix args) args)

/-- The `p_range_directive` action: builds an `IndexRangeBlock` when both
names are `index`, otherwise reports a mismatched range block and yields no
node. -/
def p_range_directive (start_name end_name : String) (args : List (String × String))
    (content : List Node) : Option Node :=
  if start_name = "index" ∧ end_name = "index" then
    some (.rangeBlock (some (mkIndexDirective "index" "open" args)) content
      (mkIndexDirective "index" "close" []))
  else none

/-- Python `s.startswith(c)` for a single-character prefix. -/
def strStarts (s : String) (c : Char) : Bool :=
  s.data.head? = some c

/-- The `p_mark` action: assembles an `IndexMark` from the heading path and
the optional crossref/suffix/sort/flag parts. `alias` and `wildcard` are the
first path segments starting with `#` resp. `*`; `emphasis`/`closing` record
whether the single optional flag token was `!` resp. `/`. -/
def p_mark (path crossrefs : List String) (suffix sort_key flag : Option String) : IndexMark :=
  { heading := path.headD ""
    subheadings := path.tail
    crossrefs := crossrefs
    suffix := suffix
    sort_key := sort_key
    emphasis := flag == some "!"
    closing := flag == some "/"
    alias_ := path.find? (fun h => strStarts h '#')
    wildcard := path.find? (fun h => strStarts h '*') }

/-! ## Recursive-descent rendering of the grammar -/

/-- One `heading_part`: bare text, a quoted string, `#text` or `##text`. -/
def parseHeadingPart : List Tok → Option (String × List Tok)
  | .TEXT s :: r => some (s, r)
  | .QUOTED s :: r => some (s, r)
  | .HASH :: .HASH :: .TEXT s :: r => some ("##" ++ s, r)
  | .HASH :: .TEXT s :: r => some ("#" ++ s, r)
  | _ => none

/-- The left-recursive tail of `heading_path`: as many `GT heading_part`
extensions as the input offers (the `heading_part` alternatives are inlined
so that the recursion is structural on the token list). -/
def parseHeadingPathRest (acc : List String) : List Tok → (List String × List Tok)
  | .GT :: .TEXT s :: r => parseHeadingPathRest (acc ++ [s]) r
  | .GT :: .QUOTED s :: r => parseHeadingPathRest (acc ++ [s]) r
  | .GT :: .HASH :: .HASH :: .TEXT s :: r => parseHeadingPathRest (acc ++ ["##" ++ s]) r
  | .GT :: .HASH :: .TEXT s :: r => parseHeadingPathRest (acc ++ ["#" ++ s]) r
  | toks => (acc, toks)

/-- Render a heading path back into a `>`-joined string (the `p_crossref`
action). -/
def joinGT (ps : List String) : String :=
  String.intercalate ">" ps

/-- The tail of `crossref_list`: `cur` is the heading path of the crossref
being accumulated, `acc` the finished crossrefs. A `GT part` extends the
current path, a `PLUS part` closes it and starts the next crossref; anything
else closes the list. -/
def parseCrossrefsAux (acc cur : List String) : List Tok → (List String × List Tok)
  | .GT :: .TEXT s :: r => parseCrossrefsAux acc (cur ++ [s]) r
  | .GT :: .QUOTED s :: r => parseCrossrefsAux acc (cur ++ [s]) r
  | .GT :: .HASH :: .HASH :: .TEXT s :: r => parseCrossrefsAux acc (cur ++ ["##" ++ s]) r
  | .GT :: .HASH :: .TEXT s :: r => parseCrossrefsAux acc (cur ++ ["#" ++ s]) r
  | .PLUS :: .TEXT s :: r => parseCrossrefsAux (acc ++ [joinGT cur]) [s] r
  | .PLUS :: .QUOTED s :: r => parseCrossrefsAux (acc ++ [joinGT cur]) [s] r
  | .PLUS :: .HASH :: .HASH :: .TEXT s :: r => parseCrossrefsAux (acc ++ [joinGT cur]) ["##" ++ s] r
  | .PLUS :: .HASH :: .TEXT s :: r => parseCrossrefsAux (acc ++ [joinGT cur]) ["#" ++ s] r
  | toks => (acc ++ [joinGT cur], toks)

/-- `opt_crossrefs : PIPE crossref_list | empty`. A `PIPE` not followed by a
heading part is a syntax error. -/
def parseOptCrossrefs : List Tok → Option (List String × List Tok)
  | .PIPE :: r =>
    match parseHeadingPart r with
    | some (s, r2) => some (parseCrossrefsAux [] [s] r2)
    | none => none
  | toks => some ([], toks)

/-- `opt_suffix : LBRACKET TEXT RBRACKET | empty`. -/
def parseOptSuffix : List Tok → (Option String × List Tok)
  | .LBRACKET :: .TEXT s :: .RBRACKET :: r => (some s, r)
  | toks => (none, toks)

/-- `opt_sort : TILDE TEXT | TILDE QUOTED | empty`. -/
def parseOptSort : List Tok → (Option String × List Tok)
  | .TILDE :: .TEXT s :: r => (some s, r)
  | .TILDE :: .QUOTED s :: r => (some s, r)
  | toks => (none, toks)

/-- `opt_flag : EXCL | SLASH | empty`. -/
def parseOptFlag : List Tok → (Option String × List Tok)
  | .EXCL :: r => (some "!", r)
  | .SLASH :: r => (some "/", r)
  | toks => (none, toks)

/-- `directive_suffix : PLUS | MINUS | EXCL | empty` (the empty production's
placeholder value compares unequal to every suffix character, so `none`
models it). -/
def parseOptDirSuffix : List Tok → (Option String × List Tok)
  | .PLUS :: r => (some "+", r)
  | .MINUS :: r => (some "-", r)
  | .EXCL :: r => (some "!", r)
  | toks => (none, toks)

/-- `directive_args_opt`: as many `TEXT EQUALS QUOTED` argument pairs as the
input offers, merged last-write-wins as in `p_directive_args`. -/
def parseArgsRest (acc : List (String × String)) : List Tok → (List (String × String) × List Tok)
  | .TEXT k :: .EQUALS :: .QUOTED v :: r => parseArgsRest (dictInsert acc k v) r
  | toks => (acc, toks)

/-- The body of a mark after `LBRACE CARET`:
`heading_path opt_crossrefs opt_suffix opt_sort opt_flag RBRACE`. -/
def parseMarkBody (toks : List Tok) : Option (Node × List Tok) :=
  match parseHeadingPart toks with
  | none => none
  | some (s, r) =>
    let pr := parseHeadingPathRest [s] r
    match parseOptCrossrefs pr.2 with
    | none => none
    | some (crossrefs, r2) =>
      let su := parseOptSuffix r2
      let so := parseOptSort su.2
      let fl := parseOptFlag so.2
      match fl.2 with
      | .RBRACE :: r3 => some (.mark (p_mark pr.1 crossrefs su.1 so.1 fl.1), r3)
      | _ => none

/-- A request to the grammar engine: parse one element (`text_element`),
the tail of a simple-or-range directive after `LBRACE TEXT`, or the
`text_elements` content of a range pair up to its closing
`LBRACE TEXT MINUS RBRACE`. -/
inductive PReq where
  | elem (toks : List Tok)
  | dirTail (name : String) (toks : List Tok)
  | content (toks : List Tok)

/-- The result of a `PReq`: a parsed node with the remaining input, a parsed
range content with the closing directive's name, or a syntax error. -/
inductive PRes where
  | node (n : Node) (rest : List Tok)
  | contentRes (ns : List Node) (endName : String) (rest : List Tok)
  | fail

/-- The grammar engine. `elem` recognizes, in the grammar's order, processing
controls `{^+}`/`{^-}`, marks `{^...}`, directives/range pairs
`{name ...}`, and bare text runs. `dirTail` parses
`directive_suffix directive_args_opt RBRACE` and either commits to a simple
directive via `p_directive` or, for `{index+ args}` with arguments (the case
`p_directive` declines), looks ahead for the matching close and builds the
range pair via `p_range_directive`. `content` collects `text_elements` until
the closing `LBRACE TEXT MINUS RBRACE`. Fuel only bounds the recursion
depth. -/
def pstep : Nat → PReq → PRes
  | 0, _ => .fail
  | fuel + 1, req =>
    match req with
    | .elem toks =>
      match toks with
      | .LBRACE :: .CARET :: .PLUS :: .RBRACE :: r => .node (.control true) r
      | .LBRACE :: .CARET :: .MINUS :: .RBRACE :: r => .node (.control false) r
      | .LBRACE :: .CARET :: r =>
        match parseMarkBody r with
        | some (n, r2) => .node n r2
        | none => .fail
      | .LBRACE :: .TEXT name :: r => pstep fuel (.dirTail name r)
      | .TEXT s :: r => .node (.text s) r
      | _ => .fail
    | .dirTail name toks =>
      let su := parseOptDirSuffix toks
      let ar := parseArgsRest [] su.2
      match ar.2 with
      | .RBRACE :: r3 =>
        if name = "index" ∧ su.1 = some "+" ∧ ar.1 ≠ [] then
          match pstep fuel (.content r3) with
          | .contentRes content endName r4 =>
            match p_range_directive name endName ar.1 content with
            | some n => .node n r4
            | none => .fail
          | _ => .fail
        else
          match p_directive name su.1 ar.1 with
          | some d => .node (.directive d) r3
          | none => .fail
      | _ => .fail
    | .content toks =>
      match toks with
      | .LBRACE :: .TEXT n :: .MINUS :: .RBRACE :: r => .contentRes [] n r
      | _ =>
        match pstep fuel (.elem toks) with
        | .node nd r =>
          match pstep fuel (.content r) with
          | .contentRes ns endName r2 => .contentRes (nd :: ns) endName r2
          | _ => .fail
        | _ => .fail

/-- The `text_elements` sequence at top level: elements parsed one after the
other until the token stream is exhausted; leftover tokens that match no
rule are a syntax error. -/
def parseElemsTop : Nat → List Tok → Option (List Node)
  | _, [] => some []
  | 0, _ :: _ => none
  | fuel + 1, t :: ts =>
    match pstep fuel (.elem (t :: ts)) with
    | .node n r => (parseElemsTop fuel r).map (fun ns => n :: ns)
    | _ => none

/-- The result of one parser invocation: `p_start` unwraps a singleton
element list to the element itself and returns longer lists whole. -/
inductive ParseOut where
  | one (n : Node)
  | many (ns : List Node)
deriving Repr

/-- The `start` symbol with the `p_start` simplification. The fuel
`3 * length + 3` dominates the recursion depth of the descent, which spends
at most three units per consumed token. -/
def parseStart (toks : List Tok) : Option ParseOut :=
  match parseElemsTop (3 * toks.length + 3) toks with
  | some [n] => some (.one n)
  | some ns => some (.many ns)
  | none => none

/-- Full pipeline: lexer then parser, as in the repository's tests. -/
def parseText (s : String) : Option ParseOut :=
  parseStart (tokenize s)

/-! ## Index builder (index_builder.py) -/

/-- The `IndexBuilder` state: the entry list, the `index` dict (heading
hierarchy before `finalize`, letter buckets after), the
`processing_enabled` flag, and the `enabled` attribute that
`handle_directive` creates on demand (`none` while the attribute does not
exist). -/
structure Builder where
  entries : List Entry := []
  index : List (String × PyVal) := []
  processing_enabled : Bool := true
  enabled : Option Bool := none
deriving Repr

/-- A freshly constructed `IndexBuilder()`. -/
def initBuilder : Builder := {}

/-- Lookup in the `index` tree (Python `current[part]`). -/
def pyDictGet (kvs : List (String × PyVal)) (k : String) : Option PyVal :=
  (kvs.find? (fun p => p.1 = k)).map (fun p => p.2)

/-- In-place update of an existing key of the `index` tree. -/
def pyDictSet (kvs : List (String × PyVal)) (k : String) (v : PyVal) :
    List (String × PyVal) :=
  kvs.map (fun p => if p.1 = k then (k, v) else p)

/-- The hierarchy-insertion loop of `handle_mark`: walk the path, creating a
missing branch as an empty dict and descending. Descending into a non-dict
value raises a `TypeError` in Python (`none` here); the loop's final
rebinding of its local variable for a non-dict leaf has no effect and is
omitted. -/
def insertPath : PyVal → List String → Option PyVal
  | v, [] => some v
  | PyVal.dict kvs, p :: rest =>
    let kvs1 := if kvs.any (fun q => q.1 = p) then kvs else kvs ++ [(p, PyVal.dict [])]
    match pyDictGet kvs1 p with
    | some sub =>
      match insertPath sub rest with
      | some sub2 => some (PyVal.dict (pyDictSet kvs1 p sub2))
      | none => none
    | none => none
  | PyVal.entryList _, _ :: _ => none

/-- `IndexBuilder.handle_directive`: dispatch on the directive kind and append
the corresponding entry; `disable`/`enable` additionally assign the
(freshly created) `enabled` attribute. -/
def handle_directive (b : Builder) (d : IndexDirective) : Builder :=
  if d.kind = "insert" ∨ d.kind = "open" ∨ d.kind = "close" ∨ d.kind = "force" then
    { b with entries := b.entries ++
        [{ type := "directive", kind := some d.kind, name := some d.name, args := d.args }] }
  else if d.kind = "range" then
    { b with entries := b.entries ++
        [{ type := "range", name := some d.name, label := arg_value d.args ["range"],
           args := d.args }] }
  else if d.kind = "see" ∨ d.kind = "seealso" then
    { b with entries := b.entries ++
        [{ type := "xref", xref_kind := some d.kind, target := dictGet? d.args d.kind }] }
  else if d.kind = "disable" then
    { b with enabled := some false,
             entries := b.entries ++ [{ type := "control", action := some "disable" }] }
  else if d.kind = "enable" then
    { b with enabled := some true,
             entries := b.entries ++ [{ type := "control", action := some "enable" }] }
  else
    { b with entries := b.entries ++
        [{ type := "unknown_directive", kind := some d.kind, args := d.args }] }

/-- `IndexBuilder.handle_mark`: record the mark entry, then insert the full
heading path into the hierarchical index tree. -/
def handle_mark (b : Builder) (m : IndexMark) : Option Builder :=
  let entry : Entry :=
    { type := "mark", heading := some m.heading, subheadings := m.subheadings,
      crossrefs := m.crossrefs, suffix := m.suffix, sort_key := m.sort_key,
      emphasis := m.emphasis, closing := m.closing, alias_ := m.alias_,
      wildcard := m.wildcard }
  match insertPath (PyVal.dict b.index) (m.heading :: m.subheadings) with
  | some (PyVal.dict kvs2) =>
    some { b with entries := b.entries ++ [entry], index := kvs2 }
  | _ => none

/-- The content-normalization loop of `handle_range_block`: strings become
`text` items, every other element a `node` item carrying its
representation. -/
def normalize_content (content : List Node) : List CItem :=
  content.map (fun c =>
    match c with
    | .text s => CItem.textItem s
    | c => CItem.nodeItem c)

/-- `IndexBuilder.handle_range_block`: resolve the label from the start
directive's `range` argument with a truthiness fallback to a `label`
argument, normalize the content, and append a `range_block` entry. A null
start directive raises an `AttributeError` on the first attribute access
(`none`). -/
def handle_range_block (b : Builder) (start? : Option IndexDirective)
    (content : List Node) (endD : IndexDirective) : Option Builder :=
  match start? with
  | none => none
  | some startD =>
    some { b with entries := b.entries ++
        [{ type := "range_block",
           label := pyOr (dictGet? startD.args "range") (dictGet? startD.args "label"),
           start := dictGet? startD.args "range",
           end_ := some endD.kind,
           content := normalize_content content }] }

/-- One iteration of the `IndexBuilder.process` loop: a `ProcessingControl`
updates the flag, every other node is skipped while disabled and otherwise
dispatched to its handler, with unrecognized values recorded as `unknown`
entries. -/
def processNode (b : Builder) (n : Node) : Option Builder :=
  match n with
  | .control e => some { b with processing_enabled := e }
  | .directive d => if b.processing_enabled then some (handle_directive b d) else some b
  | .mark m => if b.processing_enabled then handle_mark b m else some b
  | .rangeBlock s c e => if b.processing_enabled then handle_range_block b s c e else some b
  | .text s =>
    if b.processing_enabled then
      some { b with entries := b.entries ++ [{ type := "unknown", value := some (.text s) }] }
    else some b

/-- `IndexBuilder.process` over a node list. -/
def process (b : Builder) : List Node → Option Builder
  | [] => some b
  | n :: ns =>
    match processNode b n with
    | some b2 => process b2 ns
    | none => none

/-- The grouping label of `group_entries`:
`entry["args"].get("term") or entry["args"].get("range") or entry.get("label")`. -/
def group_label (e : Entry) : Option String :=
  pyOr (pyOr (dictGet? e.args "term") (dictGet? e.args "range")) e.label

/-- The bucket key of `group_entries`: `label[0].upper()`. -/
def bucketKey (lbl : String) : String :=
  (lbl.front.toUpper).toString

/-- Append an entry to a bucket of the grouped dict
(`grouped.setdefault(key, []).append(entry)`). -/
def groupAppend (g : List (String × List Entry)) (k : String) (e : Entry) :
    List (String × List Entry) :=
  if g.any (fun p => p.1 = k) then
    g.map (fun p => if p.1 = k then (p.1, p.2 ++ [e]) else p)
  else
    g ++ [(k, [e])]

/-- One step of the `group_entries` loop. -/
def groupStep (g : List (String × List Entry)) (e : Entry) : List (String × List Entry) :=
  if e.type ≠ "directive" ∧ e.type ≠ "range" then g
  else
    match group_label e with
    | none => g
    | some lbl => if lbl = "" then g else groupAppend g (bucketKey lbl) e

/-- `IndexBuilder.group_entries`: keep `directive`/`range` entries with a
truthy label and bucket them by uppercased first letter. -/
def group_entries (entries : List Entry) : List (String × List Entry) :=
  entries.foldl groupStep []

/-- The sort key of `sort_entries`:
`e.get("label") or e["args"].get("term", "")`. -/
def sortKey (e : Entry) : String :=
  (pyOr e.label (some ((dictGet? e.args "term").getD ""))).getD ""

/-- Python's string comparison `a <= b` on code-point sequences. -/
def charListLe : List Char → List Char → Bool
  | [], _ => true
  | _ :: _, [] => false
  | a :: as, b :: bs =>
    if a.toNat < b.toNat then true
    else if b.toNat < a.toNat then false
    else charListLe as bs

/-- Python string comparison lifted to `String`. -/
def strLe (a b : String) : Bool :=
  charListLe a.data b.data

/-- `IndexBuilder.sort_entries`: Python's stable ascending `sorted` by
`sortKey`, rendered as insertion sort over Python's string comparison. -/
def sort_entries (items : List Entry) : List Entry :=
  items.insertionSort (fun a b => strLe (sortKey a) (sortKey b) = true)

/-- The merge label of `merge_duplicates`:
`e.get("label") or e["args"].get("term") or ""`. -/
def mergeLabel (e : Entry) : String :=
  (pyOr e.label (dictGet? e.args "term")).getD ""

/-- One step of the `merge_duplicates` loop: a repeated label extends the
previously emitted entry's `refs`, a new label emits a copy of the entry
whose `refs` key is forced to exist. -/
def mergeStep (merged : List Entry) (e : Entry) : List Entry :=
  let lbl := mergeLabel e
  if merged.any (fun m => mergeLabel m = lbl) then
    merged.map (fun m =>
      if mergeLabel m = lbl then { m with refs := some (m.refs.getD [] ++ e.refs.getD []) }
      else m)
  else
    merged ++ [{ e with refs := some (e.refs.getD []) }]

/-- `IndexBuilder.merge_duplicates` over one sorted bucket. -/
def merge_duplicates (items : List Entry) : List Entry :=
  items.foldl mergeStep []

/-- View of a finalized grouping as `index` dict values. -/
def toPyIndex (g : List (String × List Entry)) : List (String × PyVal) :=
  g.map (fun p => (p.1, PyVal.entryList p.2))

/-- `IndexBuilder.finalize`: group, then per bucket sort and merge, store the
result in `index` and return it. -/
def finalize (b : Builder) : List (String × List Entry) × Builder :=
  let grouped := group_entries b.entries
  let grouped2 := grouped.map (fun p => (p.1, merge_duplicates (sort_entries p.2)))
  (grouped2, { b with index := toPyIndex grouped2 })

/-- `IndexBuilder.as_dict`: `self.index or self.finalize()` — the stored
index if non-empty (truthy), otherwise the result of finalizing; the pair
also returns the builder state after the access. -/
def as_dict (b : Builder) : List (String × PyVal) × Builder :=
  match b.index with
  | [] =>
    let r := finalize b
    (r.2.index, r.2)
  | kv :: kvs => (kv :: kvs, b)

/-! ## Concrete example material used by the theorems -/

/-- A bare-text path segment: non-empty and made of `t_TEXT` characters
only. -/
def bareText (s : String) : Prop :=
  s ≠ "" ∧ s.data.all isTextChar = true

instance (s : String) : Decidable (bareText s) := by
  unfold bareText
  infer_instance

/-- Token rendering of the `> segment` repetitions of a heading path. -/
def gtToks : List String → List Tok
  | [] => []
  | s :: rest => Tok.GT :: Tok.TEXT s :: gtToks rest

/-- Token rendering of a heading path `h1>h2>...>hn` of bare-text runs. -/
def pathToks : List String → List Tok
  | [] => []
  | s :: rest => Tok.TEXT s :: gtToks rest

/-- Token rendering of a full simple mark. -/
def markToks (ss : List String) : List Tok :=
  [Tok.LBRACE, Tok.CARET] ++ pathToks ss ++ [Tok.RBRACE]

/-- A directive entry carrying only a `term` argument, as built directly in
the repository's finalize tests. -/
def dirTerm (t : String) : Entry :=
  { type := "directive", args := [("term", t)] }

/-- The same entry after `merge_duplicates` forced its `refs` key to
exist. -/
def mergedTerm (t : String) : Entry :=
  { dirTerm t with refs := some [] }

/-- The builder state after processing the single mark `{^A}` from a fresh
builder. -/
def builderA : Builder :=
  { entries := [{ type := "mark", heading := some "A" }],
    index := [("A", PyVal.dict [])] }

/-- The builder state after processing one bare `{index}` directive from a
fresh builder. -/
def builderIns : Builder :=
  { entries := [{ type := "directive", kind := some "insert", name := some "index" }] }

/-- What `group_entries` guarantees for every entry it places into the
bucket keyed `k`: the entry survived the type filter and its derived group
label is truthy and begins (uppercased) with `k`. -/
def GroupedBucketOk (k : String) (e : Entry) : Prop :=
  (e.type = "directive" ∨ e.type = "range") ∧
  ∃ lbl, group_label e = some lbl ∧ lbl ≠ "" ∧ k = bucketKey lbl

/-! ## Helper lemmas -/

theorem handle_directive_flag (b : Builder) (d : IndexDirective) :
    (handle_directive b d).processing_enabled = b.processing_enabled := by
  unfold handle_directive
  split_ifs <;> rfl

theorem handle_mark_flag (b : Builder) (m : IndexMark) (b2 : Builder)
    (h : handle_mark b m = some b2) :
    b2.processing_enabled = b.processing_enabled := by
  unfold handle_mark at h
  rcases hi : insertPath (PyVal.dict b.index) (m.heading :: m.subheadings) with _ | v
  · rw [hi] at h
    exact absurd h (by simp)
  · rw [hi] at h
    cases v with
    | dict kvs => simp only [Option.some.injEq] at h; rw [← h]
    | entryList es => exact absurd h (by simp)

theorem handle_range_block_flag (b : Builder) (s : Option IndexDirective)
    (c : List Node) (e : IndexDirective) (b2 : Builder)
    (h : handle_range_block b s c e = some b2) :
    b2.processing_enabled = b.processing_enabled := by
  unfold handle_range_block at h
  cases s with
  | none => exact absurd h (by simp)
  | some startD => simp only [Option.some.injEq] at h; rw [← h]

/-- Only a `ProcessingControl` node can change the `processing_enabled`
flag. -/
theorem processNode_flag (b : Builder) (n : Node) (b2 : Builder)
    (h : processNode b n = some b2) (hn : ∀ e, n ≠ Node.control e) :
    b2.processing_enabled = b.processing_enabled := by
  cases n with
  | control e => exact absurd rfl (hn e)
  | directive d =>
    simp only [processNode] at h
    split at h
    · simp only [Option.some.injEq] at h
      rw [← h]
      exact handle_directive_flag b d
    · simp only [Option.some.injEq] at h
      rw [← h]
  | mark m =>
    simp only [processNode] at h
    split at h
    · exact handle_mark_flag b m b2 h
    · simp only [Option.some.injEq] at h
      rw [← h]
  | rangeBlock s c e =>
    simp only [processNode] at h
    split at h
    · exact handle_range_block_flag b s c e b2 h
    · simp only [Option.some.injEq] at h
      rw [← h]
  | text s =>
    simp only [processNode] at h
    split at h
    · simp only [Option.some.injEq] at h
      rw [← h]
    · simp only [Option.some.injEq] at h
      rw [← h]

theorem entries_app_refs {es : List Entry} {e1 : Entry} (hb : ∀ e ∈ es, e.refs = none)
    (h1 : e1.refs = none) : ∀ e ∈ es ++ [e1], e.refs = none := by
  intro e he
  rcases List.mem_append.mp he with hmem | hmem
  · exact hb e hmem
  · rw [List.mem_singleton.mp hmem]
    exact h1

theorem handle_directive_refs (b : Builder) (d : IndexDirective)
    (hb : ∀ e ∈ b.entries, e.refs = none) :
    ∀ e ∈ (handle_directive b d).entries, e.refs = none := by
  unfold handle_directive
  split_ifs <;> exact entries_app_refs hb rfl

theorem handle_mark_refs (b : Builder) (m : IndexMark) (b2 : Builder)
    (h : handle_mark b m = some b2) (hb : ∀ e ∈ b.entries, e.refs = none) :
    ∀ e ∈ b2.entries, e.refs = none := by
  simp only [handle_mark] at h
  split at h
  · simp only [Option.some.injEq] at h
    rw [← h]
    exact entries_app_refs hb rfl
  · exact absurd h (by simp)

theorem handle_range_block_refs (b : Builder) (s : Option IndexDirective)
    (c : List Node) (ed : IndexDirective) (b2 : Builder)
    (h : handle_range_block b s c ed = some b2) (hb : ∀ e ∈ b.entries, e.refs = none) :
    ∀ e ∈ b2.entries, e.refs = none := by
  cases s with
  | none => exact absurd h (by simp [handle_range_block])
  | some startD =>
    simp only [handle_range_block, Option.some.injEq] at h
    rw [← h]
    exact entries_app_refs hb rfl

theorem processNode_refs (b : Builder) (n : Node) (b2 : Builder)
    (h : processNode b n = some b2) (hb : ∀ e ∈ b.entries, e.refs = none) :
    ∀ e ∈ b2.entries, e.refs = none := by
  cases n with
  | control e =>
    simp only [processNode, Option.some.injEq] at h
    rw [← h]
    exact hb
  | directive d =>
    simp only [processNode] at h
    split at h
    · simp only [Option.some.injEq] at h
      rw [← h]
      exact handle_directive_refs b d hb
    · simp only [Option.some.injEq] at h
      rw [← h]
      exact hb
  | mark m =>
    simp only [processNode] at h
    split at h
    · exact handle_mark_refs b m b2 h hb
    · simp only [Option.some.injEq] at h
      rw [← h]
      exact hb
  | rangeBlock s c e =>
    simp only [processNode] at h
    split at h
    · exact handle_range_block_refs b s c e b2 h hb
    · simp only [Option.some.injEq] at h
      rw [← h]
      exact hb
  | text s =>
    simp only [processNode] at h
    split at h
    · simp only [Option.some.injEq] at h
      rw [← h]
      exact entries_app_refs hb rfl
    · simp only [Option.some.injEq] at h
      rw [← h]
      exact hb

/-- Entries accumulated by `process` never carry a `refs` key: every handler
appends entries without one. This is what makes `merge_duplicates`' sharing
of an entry's `refs` list with the merged copy unobservable for builder
states reachable through `process`. -/
theorem process_refs (nodes : List Node) :
    ∀ b b2, process b nodes = some b2 → (∀ e ∈ b.entries, e.refs = none) →
      ∀ e ∈ b2.entries, e.refs = none := by
  induction nodes with
  | nil =>
    intro b b2 h hb
    simp only [process, Option.some.injEq] at h
    rw [← h]
    exact hb
  | cons n ns ih =>
    intro b b2 h hb
    simp only [process] at h
    cases hpn : processNode b n with
    | none => rw [hpn] at h; exact absurd h (by simp)
    | some b1 =>
      rw [hpn] at h
      exact ih b1 b2 h (processNode_refs b n b1 hpn hb)

theorem gtToks_length (l : List String) : (gtToks l).length = 2 * l.length := by
  induction l with
  | nil => rfl
  | cons s rest ih => simp [gtToks, ih]; ring

theorem parseHeadingPathRest_gtToks (hs : List String) (acc : List String) :
    parseHeadingPathRest acc (gtToks hs ++ [Tok.RBRACE]) = (acc ++ hs, [Tok.RBRACE]) := by
  induction hs generalizing acc with
  | nil => simp [gtToks, parseHeadingPathRest]
  | cons s rest ih =>
    simp only [gtToks, List.cons_append, parseHeadingPathRest, List.append_eq]
    rw [ih]
    simp

theorem bareText_data_ne {s : String} (hb : bareText s) : s.data ≠ [] := by
  intro hd
  apply hb.1
  cases s with
  | mk data =>
    simp only [String.data] at hd
    rw [hd]

theorem bareText_not_strStarts {s : String} (hb : bareText s) {c : Char}
    (hc : isTextChar c = false) : strStarts s c = false := by
  have hall := hb.2
  cases hd : s.data with
  | nil => exact absurd hd (bareText_data_ne hb)
  | cons d ds =>
    rw [hd] at hall
    simp only [List.all_cons, Bool.and_eq_true] at hall
    simp only [strStarts, hd, List.head?_cons, Option.some.injEq, decide_eq_false_iff_not]
    intro hdc
    rw [hdc, hc] at hall
    exact absurd hall.1 (by simp)

theorem find?_strStarts_none {l : List String} {c : Char} (hc : isTextChar c = false)
    (hl : ∀ s ∈ l, bareText s) : l.find? (fun h => strStarts h c) = none := by
  rw [List.find?_eq_none]
  intro x hx
  rw [bareText_not_strStarts (hl x hx) hc]
  simp

theorem charListLe_total : ∀ a b, charListLe a b = true ∨ charListLe b a = true := by
  intro a
  induction a with
  | nil => intro b; left; rfl
  | cons x xs ih =>
    intro b
    cases b with
    | nil => right; rfl
    | cons y ys =>
      by_cases h1 : x.toNat < y.toNat
      · left; simp [charListLe, h1]
      · by_cases h2 : y.toNat < x.toNat
        · right; simp [charListLe, h2]
        · rcases ih ys with h | h
          · left; simp [charListLe, h1, h2, h]
          · right; simp [charListLe, h1, h2, h]

theorem charListLe_trans :
    ∀ a b c, charListLe a b = true → charListLe b c = true → charListLe a c = true := by
  intro a
  induction a with
  | nil => intro b c _ _; rfl
  | cons x xs ih =>
    intro b c hab hbc
    cases b with
    | nil => exact absurd hab (by simp [charListLe])
    | cons y ys =>
      cases c with
      | nil => exact absurd hbc (by simp [charListLe])
      | cons z zs =>
        simp only [charListLe] at hab hbc ⊢
        split_ifs at hab hbc ⊢ <;>
          first
            | rfl
            | omega
            | (exact ih ys zs hab hbc)

theorem groupAppend_ok {g : List (String × List Entry)} {k : String} {e : Entry}
    {P : String → Entry → Prop}
    (hg : ∀ p ∈ g, ∀ x ∈ p.2, P p.1 x) (he : P k e) :
    ∀ p ∈ groupAppend g k e, ∀ x ∈ p.2, P p.1 x := by
  intro p hp x hx
  unfold groupAppend at hp
  split_ifs at hp with hk
  · rcases List.mem_map.mp hp with ⟨q, hq, hpq⟩
    by_cases hq1 : q.1 = k
    · rw [if_pos hq1] at hpq
      subst hpq
      rcases List.mem_append.mp hx with hx' | hx'
      · exact hg q hq x hx'
      · rw [List.mem_singleton.mp hx']
        rw [hq1]
        exact he
    · rw [if_neg hq1] at hpq
      subst hpq
      exact hg q hq x hx
  · rcases List.mem_append.mp hp with hp' | hp'
    · exact hg p hp' x hx
    · have hpe := List.mem_singleton.mp hp'
      subst hpe
      rw [List.mem_singleton.mp hx]
      exact he

theorem groupStep_ok {g : List (String × List Entry)} {e : Entry}
    (hg : ∀ p ∈ g, ∀ x ∈ p.2, GroupedBucketOk p.1 x) :
    ∀ p ∈ groupStep g e, ∀ x ∈ p.2, GroupedBucketOk p.1 x := by
  intro p hp x hx
  unfold groupStep at hp
  split at hp
  · exact hg p hp x hx
  next htype =>
    split at hp
    · exact hg p hp x hx
    next lbl hl =>
      split_ifs at hp with he
      · exact hg p hp x hx
      · have htype' : e.type = "directive" ∨ e.type = "range" := by
          rcases not_and_or.mp htype with hh | hh
          · left; exact not_not.mp hh
          · right; exact not_not.mp hh
        exact groupAppend_ok hg ⟨htype', lbl, hl, he, rfl⟩ p hp x hx

theorem foldl_groupStep_ok (es : List Entry) :
    ∀ g, (∀ p ∈ g, ∀ x ∈ p.2, GroupedBucketOk p.1 x) →
      ∀ p ∈ es.foldl groupStep g, ∀ x ∈ p.2, GroupedBucketOk p.1 x := by
  induction es with
  | nil => intro g hg; exact hg
  | cons e rest ih =>
    intro g hg
    exact ih (groupStep g e) (groupStep_ok hg)

theorem group_entries_ok (entries : List Entry) :
    ∀ p ∈ group_entries entries, ∀ x ∈ p.2, GroupedBucketOk p.1 x :=
  foldl_groupStep_ok entries [] (by simp)

theorem parseMarkBody_path (h : String) (hs : List String) :
    parseMarkBody (pathToks (h :: hs) ++ [Tok.RBRACE]) =
      some (.mark (p_mark (h :: hs) [] none none none), []) := by
  simp only [pathToks, List.cons_append, parseMarkBody, parseHeadingPart]
  rw [parseHeadingPathRest_gtToks]
  simp [parseOptCrossrefs, parseOptSuffix, parseOptSort, parseOptFlag]

theorem pstep_elem_mark (g : Nat) (h : String) (hs : List String) :
    pstep (g + 1) (PReq.elem (markToks (h :: hs))) =
      PRes.node (.mark (p_mark (h :: hs) [] none none none)) [] := by
  have h2 : markToks (h :: hs) =
      Tok.LBRACE :: Tok.CARET :: (pathToks (h :: hs) ++ [Tok.RBRACE]) := by
    simp [markToks]
  rw [h2]
  simp only [pathToks, List.cons_append, pstep]
  rw [← List.cons_append]
  rw [show (Tok.TEXT h :: gtToks hs) = pathToks (h :: hs) from rfl]
  rw [parseMarkBody_path]

theorem parseElemsTop_mark (f : Nat) (h : String) (hs : List String) :
    parseElemsTop (f + 2) (markToks (h :: hs)) =
      some [Node.mark (p_mark (h :: hs) [] none none none)] := by
  have h2 : markToks (h :: hs) =
      Tok.LBRACE :: Tok.CARET :: (pathToks (h :: hs) ++ [Tok.RBRACE]) := by
    simp [markToks]
  rw [show f + 2 = (f + 1) + 1 from rfl, h2]
  simp only [parseElemsTop]
  rw [← h2, pstep_elem_mark]
  simp [parseElemsTop]

theorem p_mark_bare (h : String) (hs : List String) (hbh : bareText h)
    (hbs : ∀ s ∈ hs, bareText s) :
    p_mark (h :: hs) [] none none none = { heading := h, subheadings := hs } := by
  have hall : ∀ s ∈ h :: hs, bareText s := by
    intro x hx
    rcases List.mem_cons.mp hx with rfl | hx
    · exact hbh
    · exact hbs x hx
  simp only [p_mark, List.headD_cons, List.tail_cons]
  rw [find?_strStarts_none (by decide) hall, find?_strStarts_none (by decide) hall]
  rfl

/-! ## Claim theorems -/

/-- C1: evaluation of directive-kind derivation at the `seealso` input. The
claim says the argument-key order `see` > `seealso` > `range` derives the
kind, and the repository's own test (`test_index_directive_see_and_seealso`)
expects a `seealso` directive to reach the builder as such — but neither
`p_directive` nor `__post_init__` ever consults the `seealso` key, so
`{index seealso="Baz"}` (and even an explicitly requested `seealso` kind)
collapses to `insert`, while every other derivation the claim lists does
hold. -/
theorem claim_C1_directive_kind_eval :
    (∀ (name : String) (suffix : Option String) (args : List (String × String))
        (d : IndexDirective), p_directive name suffix args = some d →
        d.name = name ∧ d.args = args ∧
        d.kind = (if suffix = some "+" then "open"
          else if suffix = some "-" then "close"
          else if suffix = some "!" then "force"
          else if dictContains args "see" then "see"
          else if dictContains args "range" then "range"
          else "insert")) ∧
    parseText "\x7bindex seealso=\"Baz\"\x7d" =
      some (ParseOut.one (Node.directive
        { name := "index", kind := "insert", args := [("seealso", "Baz")] })) ∧
    mkIndexDirective "index" "seealso" [("seealso", "Baz")] =
      { name := "index", kind := "insert", args := [("seealso", "Baz")] } ∧
    parseText "\x7bindex see=\"X\"\x7d" =
      some (ParseOut.one (Node.directive
        { name := "index", kind := "see", args := [("see", "X")] })) ∧
    parseText "\x7bindex range=\"A–C\"\x7d" =
      some (ParseOut.one (Node.directive
        { name := "index", kind := "range", args := [("range", "A–C")] })) ∧
    parseText "\x7bindex+\x7d" =
      some (ParseOut.one (Node.directive { name := "index", kind := "open", args := [] })) ∧
    parseText "\x7bindex-\x7d" =
      some (ParseOut.one (Node.directive { name := "index", kind := "close", args := [] })) ∧
    parseText "\x7bindex!\x7d" =
      some (ParseOut.one (Node.directive { name := "index", kind := "force", args := [] })) := by
  refine ⟨?_, rfl, rfl, rfl, rfl, rfl, rfl, rfl⟩
  intro name suffix args d h
  unfold p_directive at h
  split_ifs at h
  simp only [Option.some.injEq] at h
  subst h
  refine ⟨rfl, rfl, ?_⟩
  by_cases h1 : suffix = some "+"
  · simp [mkIndexDirective, p_directive_kind, postInitKind, h1]
  · by_cases h2 : suffix = some "-"
    · simp [mkIndexDirective, p_directive_kind, postInitKind, h1, h2]
    · by_cases h3 : suffix = some "!"
      · simp [mkIndexDirective, p_directive_kind, postInitKind, h1, h2, h3]
      · by_cases h4 : dictContains args "see"
        · simp [mkIndexDirective, p_directive_kind, postInitKind, h1, h2, h3, h4]
        · by_cases h5 : dictContains args "range"
          · simp [mkIndexDirective, p_directive_kind, postInitKind, h1, h2, h3, h4, h5]
          · simp [mkIndexDirective, p_directive_kind, postInitKind, h1, h2, h3, h4, h5]

theorem claim_C1_witness :
    ({ name := "index", kind := "see", args := [("see", "X")] } : IndexDirective).name =
      "index" ∧
    ({ name := "index", kind := "see", args := [("see", "X")] } : IndexDirective).args =
      [("see", "X")] ∧
    ({ name := "index", kind := "see", args := [("see", "X")] } : IndexDirective).kind =
      (if (none : Option String) = some "+" then "open"
        else if (none : Option String) = some "-" then "close"
        else if (none : Option String) = some "!" then "force"
        else if dictContains [("see", "X")] "see" then "see"
        else if dictContains [("see", "X")] "range" then "range"
        else "insert") :=
  claim_C1_directive_kind_eval.1 "index" none [("see", "X")]
    { name := "index", kind := "see", args := [("see", "X")] } rfl

/-- C2: processing-control atomicity of `process`. A `ProcessingControl`
node only updates the flag and adds no entry; while the flag is false every
non-control node (a whole `RangeBlock` included) is skipped as a unit; the
mark sequence `[A, off, B, on, C]` records exactly the marks `A, C`, and
the same holds when `B` is an entire range block. -/
theorem claim_C2_processing_control_atomicity :
    (∀ (b : Builder) (e : Bool),
        processNode b (Node.control e) = some { b with processing_enabled := e }) ∧
    (∀ (b : Builder) (n : Node), b.processing_enabled = false →
        (∀ e, n ≠ Node.control e) → processNode b n = some b) ∧
    (process initBuilder [.mark { heading := "A" }, .control false, .mark { heading := "B" },
        .control true, .mark { heading := "C" }]).map
        (fun b => (b.entries.filter (fun e => e.type = "mark")).map (fun e => e.heading)) =
      some [some "A", some "C"] ∧
    (process initBuilder [.mark { heading := "A" }, .control false,
        Node.rangeBlock (some (mkIndexDirective "index" "open" [("range", "A–C")]))
          [.mark { heading := "B" }] (mkIndexDirective "index" "close" []),
        .control true, .mark { heading := "C" }]).map
        (fun b => (b.entries.filter (fun e => e.type = "mark" ∨ e.type = "range_block")).map
          (fun e => (e.type, e.heading))) =
      some [("mark", some "A"), ("mark", some "C")] := by
  refine ⟨fun b e => rfl, ?_, rfl, rfl⟩
  intro b n hflag hn
  cases n with
  | control e => exact absurd rfl (hn e)
  | directive d => simp [processNode, hflag]
  | mark m => simp [processNode, hflag]
  | rangeBlock s c e => simp [processNode, hflag]
  | text s => simp [processNode, hflag]

theorem claim_C2_witness :
    processNode initBuilder (Node.control false) =
      some { initBuilder with processing_enabled := false } ∧
    processNode { initBuilder with processing_enabled := false } (Node.text "x") =
      some { initBuilder with processing_enabled := false } :=
  ⟨claim_C2_processing_control_atomicity.1 initBuilder false,
   claim_C2_processing_control_atomicity.2.1 { initBuilder with processing_enabled := false }
     (Node.text "x") rfl (fun _ h => Node.noConfusion h)⟩

/-- C3: `{index+ range="A–C"}foo bar{index-}` parses to a range block whose
start has kind `open` and `range` argument `A–C`, whose end has kind
`close`, and whose content holds the intervening text runs in order. -/
theorem claim_C3_range_block_matching :
    parseText "\x7bindex+ range=\"A–C\"\x7dfoo bar\x7bindex-\x7d" =
      some (ParseOut.one (Node.rangeBlock
        (some { name := "index", kind := "open", args := [("range", "A–C")] })
        [Node.text "foo", Node.text "bar"]
        { name := "index", kind := "close", args := [] })) :=
  rfl

/-- C4: `finalize` is idempotent on every builder state reachable through
`process` from a fresh builder: the second call recomputes the same grouped
mapping (merged `refs` lists included) and stores the same index. The final
conjunct records why the Python-level aliasing inside `merge_duplicates`
(which would extend a processed entry's `refs` list in place) can never
fire: processed entries carry no `refs` key. -/
theorem claim_C4_finalize_idempotent :
    ∀ (nodes : List Node) (b : Builder), process initBuilder nodes = some b →
      (finalize ((finalize b).2)).1 = (finalize b).1 ∧
      (finalize ((finalize b).2)).2.index = (finalize b).2.index ∧
      (∀ e ∈ b.entries, e.refs = none) := by
  intro nodes b h
  refine ⟨rfl, rfl, ?_⟩
  exact process_refs nodes initBuilder b h (by intro e he; simp [initBuilder] at he)

theorem claim_C4_witness :
    (finalize ((finalize builderIns).2)).1 = (finalize builderIns).1 ∧
    (finalize ((finalize builderIns).2)).2.index = (finalize builderIns).2.index ∧
    (∀ e ∈ builderIns.entries, e.refs = none) :=
  claim_C4_finalize_idempotent
    [Node.directive { name := "index", kind := "insert", args := [] }] builderIns rfl

/-- C5: `finalize` keeps only `directive`/`range` entries, buckets them under
the uppercased first letter of the label derived from `term`, then `range`,
then the entry's `label` field (skipping entries with no truthy label),
sorts each bucket ascending by the entry's sort label under Python's string
comparison, and merges identical labels concatenating `refs` in encounter
order; `banana/apple/avocado` land in buckets `B` and `A = [apple, avocado]`,
and two `Apple` entries merge into one carrying both reference lists. -/
theorem claim_C5_group_sort_merge :
    (∀ (entries : List Entry), ∀ p ∈ group_entries entries, ∀ x ∈ p.2,
        GroupedBucketOk p.1 x) ∧
    (∀ items : List Entry,
        (sort_entries items).Pairwise (fun a b => strLe (sortKey a) (sortKey b) = true)) ∧
    (finalize { entries := [dirTerm "banana", dirTerm "apple", dirTerm "avocado"] }).1 =
      [("B", [mergedTerm "banana"]), ("A", [mergedTerm "apple", mergedTerm "avocado"])] ∧
    merge_duplicates [{ dirTerm "Apple" with refs := some ["p1"] },
        { dirTerm "Apple" with refs := some ["p2"] }] =
      [{ dirTerm "Apple" with refs := some ["p1", "p2"] }] := by
  refine ⟨group_entries_ok, ?_, rfl, rfl⟩
  intro items
  haveI : IsTotal Entry (fun a b => strLe (sortKey a) (sortKey b) = true) :=
    ⟨fun a b => charListLe_total (sortKey a).data (sortKey b).data⟩
  haveI : IsTrans Entry (fun a b => strLe (sortKey a) (sortKey b) = true) :=
    ⟨fun a b c => charListLe_trans (sortKey a).data (sortKey b).data (sortKey c).data⟩
  exact List.sorted_insertionSort _ items

theorem claim_C5_witness :
    GroupedBucketOk "B" (dirTerm "banana") ∧
    (sort_entries [dirTerm "banana", dirTerm "apple"]).Pairwise
      (fun a b => strLe (sortKey a) (sortKey b) = true) :=
  ⟨claim_C5_group_sort_merge.1 [dirTerm "banana"] ("B", [dirTerm "banana"])
      (by rw [show group_entries [dirTerm "banana"] = [("B", [dirTerm "banana"])] from rfl];
          exact List.mem_singleton.mpr rfl)
      (dirTerm "banana") (List.mem_singleton.mpr rfl),
   claim_C5_group_sort_merge.2.1 [dirTerm "banana", dirTerm "apple"]⟩

/-- C6: round-trip of simple marks. For every heading path of bare-text
segments, parsing `{^h1>...>hn}` yields a mark with `heading = h1`, the
remaining segments as `subheadings` in order, and empty/false values for
every optional field. -/
theorem claim_C6_simple_mark_roundtrip (h : String) (hs : List String) (hbh : bareText h)
    (hbs : ∀ s ∈ hs, bareText s) :
    parseStart (markToks (h :: hs)) =
      some (ParseOut.one (Node.mark { heading := h, subheadings := hs })) := by
  unfold parseStart
  rw [show 3 * (markToks (h :: hs)).length + 3 = (3 * (markToks (h :: hs)).length + 1) + 2
      from rfl]
  rw [parseElemsTop_mark, p_mark_bare h hs hbh hbs]

theorem claim_C6_witness :
    bareText "alpha" ∧ (∀ s ∈ ["beta", "gamma"], bareText s) ∧
    parseStart (markToks ["alpha", "beta", "gamma"]) =
      some (ParseOut.one (Node.mark
        { heading := "alpha", subheadings := ["beta", "gamma"] })) :=
  ⟨by decide, by decide,
   claim_C6_simple_mark_roundtrip "alpha" ["beta", "gamma"] (by decide) (by decide)⟩

/-- C7 counterexample: the claim also asserts that the heading of a parsed
mark is never the empty string, but the grammar accepts a quoted empty
segment: `{^""}` parses to a mark whose heading is `""`. -/
theorem claim_C7_counterexample :
    ¬(∀ m : IndexMark, parseText "\x7b^\"\"\x7d" = some (ParseOut.one (Node.mark m)) →
        m.heading ≠ "") := by
  intro hall
  exact hall { heading := "" } rfl rfl

/-- C7 (amended): for every parsed mark, `emphasis` and `closing` are never
both true — a trailing `!` yields emphasis only and a trailing `/` yields
closing only — and the heading equals the first path segment, hence is
non-empty whenever that segment is (an empty quoted first segment is the
one way to produce an empty heading). -/
theorem claim_C7_flag_exclusivity_amended :
    (∀ (path crossrefs : List String) (suffix sk flag : Option String),
        ¬((p_mark path crossrefs suffix sk flag).emphasis = true ∧
          (p_mark path crossrefs suffix sk flag).closing = true)) ∧
    (∀ (path crossrefs : List String) (suffix sk : Option String),
        (p_mark path crossrefs suffix sk (some "!")).emphasis = true ∧
        (p_mark path crossrefs suffix sk (some "!")).closing = false) ∧
    (∀ (path crossrefs : List String) (suffix sk : Option String),
        (p_mark path crossrefs suffix sk (some "/")).emphasis = false ∧
        (p_mark path crossrefs suffix sk (some "/")).closing = true) ∧
    (∀ (h : String) (t crossrefs : List String) (suffix sk flag : Option String), h ≠ "" →
        (p_mark (h :: t) crossrefs suffix sk flag).heading ≠ "") := by
  refine ⟨?_, ?_, ?_, ?_⟩
  · intro path crossrefs suffix sk flag hc
    simp only [p_mark, beq_iff_eq] at hc
    rw [hc.1] at hc
    exact absurd hc.2 (by simp)
  · intro path crossrefs suffix sk
    exact ⟨rfl, rfl⟩
  · intro path crossrefs suffix sk
    exact ⟨rfl, rfl⟩
  · intro h t crossrefs suffix sk flag hne
    simpa only [p_mark, List.headD_cons] using hne

theorem claim_C7_witness :
    ¬((p_mark ["A"] [] none none none).emphasis = true ∧
      (p_mark ["A"] [] none none none).closing = true) ∧
    ((p_mark ["A"] [] none none (some "!")).emphasis = true ∧
      (p_mark ["A"] [] none none (some "!")).closing = false) ∧
    (p_mark ["A"] [] none none none).heading ≠ "" :=
  ⟨claim_C7_flag_exclusivity_amended.1 ["A"] [] none none none,
   claim_C7_flag_exclusivity_amended.2.1 ["A"] [] none none,
   claim_C7_flag_exclusivity_amended.2.2.2 "A" [] [] none none none (by decide)⟩

/-- C8 counterexample: a range block whose start directive is null makes
`handle_range_block` raise (`None.args` is an `AttributeError`), aborting
`process` so that the unrelated mark after the block is never recorded —
contrary to the claim's "does not raise ... continues reducing". -/
theorem claim_C8_counterexample :
    handle_range_block initBuilder none [] (mkIndexDirective "index" "close" []) = none ∧
    process initBuilder [Node.rangeBlock none [] (mkIndexDirective "index" "close" []),
      Node.mark { heading := "C" }] = none :=
  ⟨rfl, rfl⟩

/-- C8 (amended): for every range block whose start directive is present but
carries neither a `range` nor a `label` argument, `handle_range_block` does
not raise: it records a `range_block` entry with a `None` label and
processing continues with the remaining nodes; only a null start directive
raises and aborts. -/
theorem claim_C8_structural_degradation_amended :
    (∀ (b : Builder) (startD : IndexDirective) (content : List Node) (endD : IndexDirective),
        dictGet? startD.args "range" = none → dictGet? startD.args "label" = none →
        handle_range_block b (some startD) content endD =
          some { b with entries := b.entries ++
            [{ type := "range_block", label := none, start := none, end_ := some endD.kind,
               content := normalize_content content }] }) ∧
    (process initBuilder
        [Node.rangeBlock (some { name := "index", kind := "open", args := [] }) []
          (mkIndexDirective "index" "close" []), Node.mark { heading := "C" }]).map
        (fun b => b.entries.map (fun e => (e.type, e.label, e.heading))) =
      some [("range_block", none, none), ("mark", none, some "C")] := by
  refine ⟨?_, rfl⟩
  intro b startD content endD h1 h2
  simp only [handle_range_block, h1, h2]
  rfl

theorem claim_C8_witness :
    handle_range_block initBuilder (some { name := "index", kind := "open", args := [] }) []
        (mkIndexDirective "index" "close" []) =
      some { initBuilder with entries :=
        [{ type := "range_block", label := none, start := none, end_ := some "close",
           content := [] }] } :=
  claim_C8_structural_degradation_amended.1 initBuilder
    { name := "index", kind := "open", args := [] } [] (mkIndexDirective "index" "close" [])
    rfl rfl

/-- C9: evaluation of `as_dict` after a mark has been processed. The claim
(and the accessor's own docstring) says the accessor returns the finalized
index, triggering `finalize` on first access — but `handle_mark` populates
`self.index` with the heading hierarchy, so `self.index or self.finalize()`
returns the non-finalized hierarchy tree (`{"A": {}}`), never calls
`finalize` (whose result here would be the empty mapping), and leaves the
stored index unchanged. -/
theorem claim_C9_as_dict_eval :
    (process initBuilder [Node.mark { heading := "A" }]).map (fun b => (as_dict b).1) =
      some [("A", PyVal.dict [])] ∧
    (process initBuilder [Node.mark { heading := "A" }]).map (fun b => (finalize b).1) =
      some [] ∧
    (process initBuilder [Node.mark { heading := "A" }]).map (fun b => (as_dict b).2.index) =
      some [("A", PyVal.dict [])] ∧
    ([("A", PyVal.dict [])] : List (String × PyVal)) ≠ [] := by
  refine ⟨rfl, rfl, rfl, ?_⟩
  simp

/-- C10: a `disable`/`enable` directive appends a control entry and assigns
the separate `enabled` attribute, leaving `processing_enabled` untouched, so
subsequent dispatch is unaffected; only `ProcessingControl` nodes ever
change `processing_enabled`. -/
theorem claim_C10_directive_enable_frame :
    (∀ (b : Builder) (d : IndexDirective), d.kind = "disable" →
        handle_directive b d = { b with
          enabled := some false,
          entries := b.entries ++ [{ type := "control", action := some "disable" }] }) ∧
    (∀ (b : Builder) (d : IndexDirective), d.kind = "enable" →
        handle_directive b d = { b with
          enabled := some true,
          entries := b.entries ++ [{ type := "control", action := some "enable" }] }) ∧
    (∀ (b : Builder) (d : IndexDirective),
        (handle_directive b d).processing_enabled = b.processing_enabled) ∧
    (∀ (b : Builder) (n : Node) (b2 : Builder), processNode b n = some b2 →
        (∀ e, n ≠ Node.control e) → b2.processing_enabled = b.processing_enabled) := by
  refine ⟨?_, ?_, handle_directive_flag, processNode_flag⟩
  · intro b d hd
    simp [handle_directive, hd]
  · intro b d hd
    simp [handle_directive, hd]

theorem claim_C10_witness :
    handle_directive initBuilder { name := "index", kind := "disable", args := [] } =
      { initBuilder with
        enabled := some false,
        entries := [{ type := "control", action := some "disable" }] } ∧
    ({ initBuilder with entries :=
        [{ type := "unknown", value := some (Node.text "x") }] } : Builder).processing_enabled =
      initBuilder.processing_enabled :=
  ⟨claim_C10_directive_enable_frame.1 initBuilder
      { name := "index", kind := "disable", args := [] } rfl,
   claim_C10_directive_enable_frame.2.2.2 initBuilder (Node.text "x")
      { initBuilder with entries := [{ type := "unknown", value := some (Node.text "x") }] }
      rfl (fun _ h => Node.noConfusion h)⟩

end TextIndex
